import Mathlib

/-!
Shallow embedding of the debounce-and-dispatch engine of the
`mediaserverrefresh9` MoviePilot plugin (`plugins.v2/mediaserverrefresh9/__init__.py`),
together with proofs of its specified properties.

Conventions of the embedding:
* Filesystem paths are lists of path components (so `Path(p).parent` is
  `List.dropLast`, and `str(path)` is the component list itself).
* Time is modelled by `Nat` timestamps.
* Python's insertion-ordered `dict` used for directory-level dedup is
  modelled by an association list where updating an existing key keeps
  its position and replaces its value.
* The mutex-protected critical sections of the source are atomic steps
  of the transition systems below.
-/

/-- Media type of a `MediaInfo` payload (`mediainfo.type` in the source). -/
inductive MediaType where
  | movie
  | tv
  | unknown
  deriving DecidableEq, Repr

/-- `RefreshMediaItem` as constructed in `refresh` (source lines 227-233):
title, year, type, category and the transfer's target path. -/
structure RefreshMediaItem where
  title : String
  year : String
  mtype : MediaType
  category : String
  target_path : List String
  deriving DecidableEq, Repr

/-- The coalescing key used by `_do_refresh` (source line 282):
`str(i.target_path.parent)`, i.e. the parent directory of the target path. -/
def parentKey (i : RefreshMediaItem) : List String :=
  i.target_path.dropLast

/-- Insertion-ordered dictionary update, as Python's `uniq[k] = v`:
an existing key keeps its position and gets the new value; a fresh key is
appended at the end. -/
def dictInsert (k : List String) (v : RefreshMediaItem) :
    List (List String × RefreshMediaItem) → List (List String × RefreshMediaItem)
  | [] => [(k, v)]
  | (k', v') :: rest =>
      if k' = k then (k', v) :: rest else (k', v') :: dictInsert k v rest

/-- Dictionary lookup on the association list model. -/
def alLookup (k : List String) :
    List (List String × RefreshMediaItem) → Option RefreshMediaItem
  | [] => none
  | (k', v) :: rest => if k' = k then some v else alLookup k rest

/-- The dedup loop of `_do_refresh` (source lines 280-282):
`uniq = {}; for i in items: uniq[str(i.target_path.parent)] = i`. -/
def dedup (items : List RefreshMediaItem) :
    List (List String × RefreshMediaItem) :=
  items.foldl (fun acc i => dictInsert (parentKey i) i acc) []

/-- `list(uniq.values())` (source line 283): the deduplicated batch, in
key-insertion order. -/
def dedupItems (items : List RefreshMediaItem) : List RefreshMediaItem :=
  (dedup items).map Prod.snd

theorem dedup_concat (items : List RefreshMediaItem) (i : RefreshMediaItem) :
    dedup (items ++ [i]) = dictInsert (parentKey i) i (dedup items) := by
  simp [dedup, List.foldl_append]

theorem alLookup_dictInsert_self (k : List String) (v : RefreshMediaItem)
    (l : List (List String × RefreshMediaItem)) :
    alLookup k (dictInsert k v l) = some v := by
  induction l with
  | nil => simp [dictInsert, alLookup]
  | cons hd tl ih =>
      obtain ⟨k', v'⟩ := hd
      by_cases h : k' = k
      · simp [dictInsert, alLookup, h]
      · simp [dictInsert, alLookup, h, ih]

theorem alLookup_dictInsert_ne (k k' : List String) (v : RefreshMediaItem)
    (l : List (List String × RefreshMediaItem)) (h : k' ≠ k) :
    alLookup k (dictInsert k' v l) = alLookup k l := by
  induction l with
  | nil => simp [dictInsert, alLookup, h]
  | cons hd tl ih =>
      obtain ⟨k'', v''⟩ := hd
      by_cases h2 : k'' = k'
      · subst h2
        simp only [dictInsert, eq_self_iff_true, ite_true, alLookup]
        rw [if_neg h, if_neg h]
      · simp only [dictInsert, if_neg h2, alLookup]
        by_cases h3 : k'' = k
        · rw [if_pos h3, if_pos h3]
        · rw [if_neg h3, if_neg h3, ih]

theorem mem_keys_dictInsert (x k : List String) (v : RefreshMediaItem)
    (l : List (List String × RefreshMediaItem)) :
    x ∈ (dictInsert k v l).map Prod.fst ↔ x ∈ l.map Prod.fst ∨ x = k := by
  induction l with
  | nil => simp [dictInsert]
  | cons hd tl ih =>
      obtain ⟨k', v'⟩ := hd
      by_cases h : k' = k
      · subst h
        simp only [dictInsert, eq_self_iff_true, ite_true, List.map_cons,
          List.mem_cons]
        tauto
      · simp only [dictInsert, if_neg h, List.map_cons, List.mem_cons, ih]
        tauto

theorem nodup_keys_dictInsert (k : List String) (v : RefreshMediaItem)
    (l : List (List String × RefreshMediaItem))
    (h : (l.map Prod.fst).Nodup) :
    ((dictInsert k v l).map Prod.fst).Nodup := by
  induction l with
  | nil => simp [dictInsert]
  | cons hd tl ih =>
      obtain ⟨k', v'⟩ := hd
      simp only [List.map_cons, List.nodup_cons] at h
      by_cases hk : k' = k
      · subst hk
        simp only [dictInsert, eq_self_iff_true, ite_true, List.map_cons,
          List.nodup_cons]
        exact h
      · simp only [dictInsert, if_neg hk, List.map_cons, List.nodup_cons]
        refine ⟨?_, ih h.2⟩
        rw [mem_keys_dictInsert]
        rintro (hmem | rfl)
        · exact h.1 hmem
        · exact hk rfl

theorem dedup_keys_nodup (items : List RefreshMediaItem) :
    ((dedup items).map Prod.fst).Nodup := by
  induction items using List.reverseRecOn with
  | nil => simp [dedup]
  | append_singleton l i ih =>
      rw [dedup_concat]
      exact nodup_keys_dictInsert _ _ _ ih

theorem dedup_last_wins (items : List RefreshMediaItem) (k : List String) :
    alLookup k (dedup items) =
      (items.filter (fun i => decide (parentKey i = k))).getLast? := by
  induction items using List.reverseRecOn with
  | nil => simp [dedup, alLookup]
  | append_singleton l i ih =>
      rw [dedup_concat]
      by_cases h : parentKey i = k
      · subst h
        rw [alLookup_dictInsert_self]
        simp [List.filter_append]
      · rw [alLookup_dictInsert_ne _ _ _ _ h]
        simp [List.filter_append, h, ih]

/-- Sample item for `/lib/showA/ep1`. -/
def itemA1 : RefreshMediaItem :=
  ⟨"showA", "2021", MediaType.tv, "tvshows", ["lib", "showA", "ep1"]⟩

/-- Sample item for `/lib/showA/ep2`. -/
def itemA2 : RefreshMediaItem :=
  ⟨"showA", "2021", MediaType.tv, "tvshows", ["lib", "showA", "ep2"]⟩

/-- Sample item for `/lib/showB/ep1`. -/
def itemB1 : RefreshMediaItem :=
  ⟨"showB", "2022", MediaType.tv, "tvshows", ["lib", "showB", "ep1"]⟩

/-- C1: the Dedup Reducer returns exactly one item per distinct coalescing key
(the parent directory of the target path); the retained item for a key is the
last one in arrival order; and the `/lib/showA/ep1`, `/lib/showA/ep2`,
`/lib/showB/ep1` scenario reduces to exactly the two entries keyed
`/lib/showA` and `/lib/showB`, each the latest item seen for its directory. -/
theorem dedup_one_per_key_last_wins :
    (∀ items : List RefreshMediaItem, ((dedup items).map Prod.fst).Nodup) ∧
    (∀ (items : List RefreshMediaItem) (k : List String),
      alLookup k (dedup items) =
        (items.filter (fun i => decide (parentKey i = k))).getLast?) ∧
    dedup [itemA1, itemA2, itemB1] =
      [(["lib", "showA"], itemA2), (["lib", "showB"], itemB1)] ∧
    dedupItems [itemA1, itemA2, itemB1] = [itemA2, itemB1] := by
  refine ⟨dedup_keys_nodup, dedup_last_wins, ?_, ?_⟩ <;> decide

/-- Operations on the pending queue: `enq i` is `self._pending_items.append(item)`
under the lock (source line 236); `drain` is the atomic
`items = self._pending_items[:]; self._pending_items.clear()` critical
section shared by `_flush_with_items` (lines 264-266) and `refresh_now`
(lines 202-204). -/
inductive QOp where
  | enq (i : RefreshMediaItem)
  | drain
  deriving DecidableEq, Repr

/-- Queue history: the current queue content and the list of batches
returned by the drains performed so far. -/
structure QTrace where
  queue : List RefreshMediaItem
  drains : List (List RefreshMediaItem)
  deriving DecidableEq, Repr

/-- One atomic queue operation. -/
def qstep (st : QTrace) : QOp → QTrace
  | .enq i => { st with queue := st.queue ++ [i] }
  | .drain => { queue := [], drains := st.drains ++ [st.queue] }

/-- Run a sequence of queue operations from the empty initial state. -/
def qrun (ops : List QOp) : QTrace :=
  ops.foldl qstep ⟨[], []⟩

/-- The item enqueued by an operation, if any. -/
def enqOf : QOp → Option RefreshMediaItem
  | .enq i => some i
  | .drain => none

theorem qrun_conservation (ops : List QOp) (st : QTrace) (i : RefreshMediaItem) :
    ((ops.foldl qstep st).drains.flatten.count i
        + (ops.foldl qstep st).queue.count i)
      = st.drains.flatten.count i + st.queue.count i
        + (ops.filterMap enqOf).count i := by
  induction ops generalizing st with
  | nil => simp
  | cons op rest ih =>
      cases op with
      | enq j =>
          simp only [List.foldl_cons, qstep, List.filterMap_cons, enqOf]
          rw [ih]
          simp [List.count_append, List.count_cons]
          by_cases h : j = i <;> simp [h] <;> omega
      | drain =>
          simp only [List.foldl_cons, qstep, List.filterMap_cons, enqOf]
          rw [ih]
          simp [List.count_append]

/-- C2: draining is atomic and lossless. For every operation sequence:
a trailing drain returns the full current queue content and leaves the queue
empty; at every point, the occurrences of an item delivered across all drain
results plus those still queued equal exactly the occurrences enqueued so far
(so no item is lost between check and clear, and no occurrence is delivered
by two drains); and after a drain, every occurrence enqueued strictly before
it lies in exactly one drain result. -/
theorem qrun_drain_atomic (ops : List QOp) (i : RefreshMediaItem) :
    ((qrun (ops ++ [QOp.drain])).queue = [] ∧
      (qrun (ops ++ [QOp.drain])).drains
        = (qrun ops).drains ++ [(qrun ops).queue]) ∧
    ((qrun ops).drains.flatten.count i + (qrun ops).queue.count i
        = (ops.filterMap enqOf).count i) ∧
    (qrun (ops ++ [QOp.drain])).drains.flatten.count i
        = (ops.filterMap enqOf).count i := by
  have hrun : qrun (ops ++ [QOp.drain]) = qstep (qrun ops) .drain := by
    simp [qrun, List.foldl_append]
  have hcons := qrun_conservation ops ⟨[], []⟩ i
  simp only [List.flatten_nil, List.count_nil, List.count_nil, Nat.zero_add] at hcons
  refine ⟨⟨?_, ?_⟩, ?_, ?_⟩
  · rw [hrun]; rfl
  · rw [hrun]; rfl
  · exact hcons
  · rw [hrun]
    simp only [qstep, List.flatten_append, List.count_append]
    simpa using hcons

/-- Events of the debounce subsystem: `call t` is an invocation of
`_debounce` at time `t` (source lines 247-252); `check t` is one
iteration of the waiter's `while time.time() < self._end_time` test at
time `t` (lines 255-259), which on success performs the flush and clears
`_in_delay`. -/
inductive DbEvent where
  | call (t : Nat)
  | check (t : Nat)
  deriving DecidableEq, Repr

/-- Time at which an event happens. -/
def eTime : DbEvent → Nat
  | .call t => t
  | .check t => t

/-- Whether an event is a `_debounce` call. -/
def isCall : DbEvent → Bool
  | .call _ => true
  | .check _ => false

/-- Debounce bookkeeping: `in_delay` and `end_time` are the source fields;
`spawns` counts `threading.Thread(...).start()` executions (line 261);
`live` counts waiter threads currently running; `dispatched` records the
times at which a waiter's check succeeded and it flushed. -/
structure DbState where
  in_delay : Bool
  end_time : Nat
  spawns : Nat
  live : Nat
  dispatched : List Nat
  deriving DecidableEq, Repr

/-- One atomic step of the debounce subsystem.  A `call t` always
overwrites `end_time` with `t + delay` (line 249) and spawns a waiter only
when `in_delay` was false (lines 250-252, 261).  A waiter `check t`
succeeds when `t ≥ end_time`, in which case the waiter flushes, clears
`in_delay` (lines 258-259) and terminates; checks only occur while a waiter
is live. -/
def dbStep (delay : Nat) (s : DbState) : DbEvent → DbState
  | .call t =>
      if s.in_delay then { s with end_time := t + delay }
      else
        { s with end_time := t + delay, in_delay := true,
                 spawns := s.spawns + 1, live := s.live + 1 }
  | .check t =>
      if s.in_delay && decide (s.end_time ≤ t) then
        { s with in_delay := false, live := s.live - 1,
                 dispatched := s.dispatched ++ [t] }
      else s

/-- Run the debounce subsystem over a trace of events. -/
def runDb (delay : Nat) (s : DbState) (tr : List DbEvent) : DbState :=
  tr.foldl (dbStep delay) s

/-- Idle initial debounce state, with an arbitrary leftover deadline. -/
def dbInit (e0 : Nat) : DbState :=
  ⟨false, e0, 0, 0, []⟩

/-- Invariant carried along a debounce trace whose calls all happen in the
window `[a, b]` with `b < a + delay`: either no call has been processed yet
(and the call at time `b` is still ahead), or exactly one waiter was
spawned and is live with the deadline set by the last processed call, or
the single waiter has dispatched at a time no earlier than `b + delay` and
no calls remain. -/
def DbInv (a b delay : Nat) (s : DbState) (tr : List DbEvent) : Prop :=
  (s.in_delay = false ∧ s.spawns = 0 ∧ s.live = 0 ∧ s.dispatched = [] ∧
    DbEvent.call b ∈ tr)
  ∨ (s.in_delay = true ∧ s.spawns = 1 ∧ s.live = 1 ∧ s.dispatched = [] ∧
      ∃ lc, a ≤ lc ∧ lc ≤ b ∧ s.end_time = lc + delay ∧
        (∀ e ∈ tr, isCall e = true → lc ≤ eTime e) ∧
        (lc = b ∨ DbEvent.call b ∈ tr))
  ∨ (s.in_delay = false ∧ s.spawns = 1 ∧ s.live = 0 ∧
      (∃ td, s.dispatched = [td] ∧ b + delay ≤ td) ∧
      (∀ e ∈ tr, isCall e = false))

theorem dbStep_call_idle (delay : Nat) (s : DbState) (t : Nat)
    (h : s.in_delay = false) :
    dbStep delay s (DbEvent.call t) =
      { s with end_time := t + delay, in_delay := true,
               spawns := s.spawns + 1, live := s.live + 1 } := by
  simp [dbStep, h]

theorem dbStep_call_busy (delay : Nat) (s : DbState) (t : Nat)
    (h : s.in_delay = true) :
    dbStep delay s (DbEvent.call t) = { s with end_time := t + delay } := by
  simp [dbStep, h]

theorem dbStep_check_fire (delay : Nat) (s : DbState) (t : Nat)
    (h1 : s.in_delay = true) (h2 : s.end_time ≤ t) :
    dbStep delay s (DbEvent.check t) =
      { s with in_delay := false, live := s.live - 1,
               dispatched := s.dispatched ++ [t] } := by
  simp [dbStep, h1, h2]

theorem dbStep_check_idle (delay : Nat) (s : DbState) (t : Nat)
    (h : s.in_delay = false) :
    dbStep delay s (DbEvent.check t) = s := by
  simp [dbStep, h]

theorem dbStep_check_wait (delay : Nat) (s : DbState) (t : Nat)
    (h : ¬ s.end_time ≤ t) :
    dbStep delay s (DbEvent.check t) = s := by
  simp [dbStep, h]

theorem dbInv_step (a b delay : Nat) (hab : b < a + delay)
    (e : DbEvent) (tr : List DbEvent)
    (hcall_e : isCall e = true → a ≤ eTime e ∧ eTime e ≤ b)
    (hcalls_tr : ∀ e' ∈ tr, isCall e' = true → a ≤ eTime e' ∧ eTime e' ≤ b)
    (hhead : ∀ e' ∈ tr, eTime e ≤ eTime e')
    (s : DbState) (hInv : DbInv a b delay s (e :: tr)) :
    DbInv a b delay (dbStep delay s e) tr := by
  rcases hInv with ⟨hd, hsp, hlv, hdi, hb⟩ |
    ⟨hd, hsp, hlv, hdi, lc, hal, hlb, het, hfut, hor⟩ |
    ⟨hd, hsp, hlv, ⟨td, hdi, htd⟩, hnc⟩
  · -- no call processed yet
    cases e with
    | call t =>
        obtain ⟨hat, htb⟩ := hcall_e rfl
        rw [dbStep_call_idle delay s t hd]
        refine Or.inr (Or.inl ⟨rfl, by simp [hsp], by simp [hlv], hdi,
          t, hat, htb, rfl, ?_, ?_⟩)
        · intro e' he' _
          exact hhead e' he'
        · rcases List.mem_cons.mp hb with heq | hmem
          · injection heq with h
            exact Or.inl h.symm
          · exact Or.inr hmem
    | check t =>
        rw [dbStep_check_idle delay s t hd]
        refine Or.inl ⟨hd, hsp, hlv, hdi, ?_⟩
        rcases List.mem_cons.mp hb with heq | hmem
        · exact absurd heq (by simp)
        · exact hmem
  · -- one live waiter
    cases e with
    | call t =>
        obtain ⟨hat, htb⟩ := hcall_e rfl
        rw [dbStep_call_busy delay s t hd]
        refine Or.inr (Or.inl ⟨hd, hsp, hlv, hdi, t, hat, htb, rfl, ?_, ?_⟩)
        · intro e' he' _
          exact hhead e' he'
        · rcases hor with hlcb | hmem
          · have hle : lc ≤ t := by
              have h := hfut (DbEvent.call t) (List.mem_cons_self _ _) rfl
              simpa [eTime] using h
            have htb' : t ≤ b := by simpa [eTime] using htb
            left
            omega
          · rcases List.mem_cons.mp hmem with heq | hmem'
            · injection heq with h
              exact Or.inl h.symm
            · exact Or.inr hmem'
    | check t =>
        by_cases hfire : s.end_time ≤ t
        · -- the waiter's check succeeds: it flushes and exits
          have hfire' : lc + delay ≤ t := by rw [het] at hfire; exact hfire
          have hlc_eq : lc = b := by
            rcases hor with hlcb | hmem
            · exact hlcb
            · exfalso
              have hmem' : DbEvent.call b ∈ tr := by
                rcases List.mem_cons.mp hmem with heq | h'
                · exact absurd heq (by simp)
                · exact h'
              have h1 : t ≤ b := hhead (DbEvent.call b) hmem'
              omega
          rw [dbStep_check_fire delay s t hd hfire]
          refine Or.inr (Or.inr ⟨rfl, hsp, by simp [hlv],
            ⟨t, by simp [hdi], by omega⟩, ?_⟩)
          intro e' he'
          cases e' with
          | call t' =>
              exfalso
              have h1 : t ≤ t' := hhead (DbEvent.call t') he'
              have h2 : t' ≤ b := (hcalls_tr (DbEvent.call t') he' rfl).2
              omega
          | check _ => rfl
        · -- the waiter keeps sleeping
          rw [dbStep_check_wait delay s t hfire]
          refine Or.inr (Or.inl ⟨hd, hsp, hlv, hdi, lc, hal, hlb, het, ?_, ?_⟩)
          · intro e' he' hc
            exact hfut e' (List.mem_cons_of_mem _ he') hc
          · rcases hor with hlcb | hmem
            · exact Or.inl hlcb
            · rcases List.mem_cons.mp hmem with heq | hmem'
              · exact absurd heq (by simp)
              · exact Or.inr hmem'
  · -- already dispatched: no calls remain, checks are inert
    cases e with
    | call t =>
        exact absurd (hnc (DbEvent.call t) (List.mem_cons_self _ _))
          (by simp [isCall])
    | check t =>
        rw [dbStep_check_idle delay s t hd]
        exact Or.inr (Or.inr ⟨hd, hsp, hlv, ⟨td, hdi, htd⟩,
          fun e' he' => hnc e' (List.mem_cons_of_mem _ he')⟩)

theorem dbInv_run (a b delay : Nat) (hab : b < a + delay)
    (tr : List DbEvent)
    (hpw : tr.Pairwise (fun e1 e2 => eTime e1 ≤ eTime e2))
    (hcalls : ∀ e ∈ tr, isCall e = true → a ≤ eTime e ∧ eTime e ≤ b)
    (s : DbState) (hInv : DbInv a b delay s tr) :
    DbInv a b delay (runDb delay s tr) [] := by
  induction tr generalizing s with
  | nil => exact hInv
  | cons e rest ih =>
      rw [List.pairwise_cons] at hpw
      refine ih hpw.2 (fun e' he' => hcalls e' (List.mem_cons_of_mem _ he')) _ ?_
      exact dbInv_step a b delay hab e rest
        (hcalls e (List.mem_cons_self _ _))
        (fun e' he' => hcalls e' (List.mem_cons_of_mem _ he'))
        hpw.1 s hInv

/-- C3: if all `_debounce` calls of a trace happen inside a window `[a, b]`
shorter than the delay (`b < a + delay`), with the last call at time `b`,
then starting from an idle state exactly one waiter thread is spawned,
a raised `in_delay` flag corresponds to exactly one live waiter, every
dispatch of the waiter happens no earlier than `b + delay` (time of the last
call plus the delay), and every call overwrites the deadline to its own time
plus the delay. -/
theorem debounce_single_waiter (a b delay e0 : Nat) (tr : List DbEvent)
    (hab : b < a + delay)
    (hb : DbEvent.call b ∈ tr)
    (hpw : tr.Pairwise (fun e1 e2 => eTime e1 ≤ eTime e2))
    (hcalls : ∀ e ∈ tr, isCall e = true → a ≤ eTime e ∧ eTime e ≤ b) :
    (runDb delay (dbInit e0) tr).spawns = 1 ∧
    ((runDb delay (dbInit e0) tr).in_delay = true →
      (runDb delay (dbInit e0) tr).live = 1) ∧
    (∀ td ∈ (runDb delay (dbInit e0) tr).dispatched, b + delay ≤ td) ∧
    (∀ (s : DbState) (t : Nat),
      (dbStep delay s (DbEvent.call t)).end_time = t + delay) := by
  have hfin := dbInv_run a b delay hab tr hpw hcalls (dbInit e0)
    (Or.inl ⟨rfl, rfl, rfl, rfl, hb⟩)
  have hend : ∀ (s : DbState) (t : Nat),
      (dbStep delay s (DbEvent.call t)).end_time = t + delay := by
    intro s t
    by_cases h : s.in_delay = true
    · rw [dbStep_call_busy delay s t h]
    · rw [dbStep_call_idle delay s t (by simpa using h)]
  rcases hfin with ⟨_, _, _, _, hbad⟩ |
    ⟨hd, hsp, hlv, hdi, _, _, _, _, _, _⟩ |
    ⟨hd, hsp, hlv, ⟨td, hdi, htd⟩, _⟩
  · exact absurd hbad (List.not_mem_nil _)
  · exact ⟨hsp, fun _ => hlv, by simp [hdi], hend⟩
  · refine ⟨hsp, fun h => by rw [hd] at h; exact absurd h (by simp), ?_, hend⟩
    intro td' htd'
    rw [hdi, List.mem_singleton] at htd'
    exact htd' ▸ htd

/-- C3 witness trace: calls of `_debounce` at times 2, 3, 4 with delay 5,
waiter checks at times 5 and 9. -/
def dbTrace : List DbEvent :=
  [DbEvent.call 2, DbEvent.call 3, DbEvent.call 4,
   DbEvent.check 5, DbEvent.check 9]

theorem debounce_single_waiter_witness :
    DbEvent.call 4 ∈ dbTrace ∧
    ((runDb 5 (dbInit 0) dbTrace).spawns = 1 ∧
      ((runDb 5 (dbInit 0) dbTrace).in_delay = true →
        (runDb 5 (dbInit 0) dbTrace).live = 1) ∧
      (∀ td ∈ (runDb 5 (dbInit 0) dbTrace).dispatched, 4 + 5 ≤ td) ∧
      (∀ (s : DbState) (t : Nat),
        (dbStep 5 s (DbEvent.call t)).end_time = t + 5)) :=
  ⟨by decide,
    debounce_single_waiter 2 4 5 0 dbTrace (by decide) (by decide)
      (by decide) (by decide)⟩

/-- One live media-server service as seen by `_do_refresh`:
`name` is the dict key, `hasItemRefresh` is
`hasattr(service.instance, "refresh_library_by_items")` (source line 286),
`hasLibraryRefresh` is the whole-library capability of the spec's Service
Handle (never consulted by this code), and `callOk item` tells whether
`service.instance.refresh_library_by_items([item])` succeeds or raises. -/
structure ServiceBehavior where
  name : String
  hasItemRefresh : Bool
  hasLibraryRefresh : Bool
  callOk : RefreshMediaItem → Bool

/-- Observable effects of one dispatch cycle: `itemCall` is a single
item-scoped `refresh_library_by_items([item])` call and whether it
succeeded; `errorLog` is `logger.error(f"{name} 刷新失败: ...")` (line 293);
`unsupportedLog` is `logger.warning(f"{name} 不支持刷新")` (line 295);
`libraryCall` would be a whole-library refresh call — the code has no
path that issues one. -/
inductive LogEntry where
  | itemCall (svc : String) (item : RefreshMediaItem) (ok : Bool)
  | errorLog (svc : String)
  | unsupportedLog (svc : String)
  | libraryCall (svc : String)
  deriving DecidableEq, Repr

/-- The per-service body of the dispatch loop (source lines 285-295): with
item refresh support, one call per deduplicated item inside try/except —
a failing call is logged and the loop continues; otherwise a single
"unsupported" warning.  The `time.sleep(0.2)` pacing between calls has no
observable effect on the call sequence and is not modelled. -/
def refreshOneService (deduped : List RefreshMediaItem)
    (svc : ServiceBehavior) : List LogEntry :=
  if svc.hasItemRefresh then
    deduped.flatMap (fun item =>
      if svc.callOk item then [LogEntry.itemCall svc.name item true]
      else [LogEntry.itemCall svc.name item false, LogEntry.errorLog svc.name])
  else [LogEntry.unsupportedLog svc.name]

/-- `_do_refresh` (source lines 274-295): bail out when no live services,
dedup by parent directory, then run the per-service loop over every
service.  Returns the sequence of observable effects. -/
def do_refresh (services : List ServiceBehavior)
    (items : List RefreshMediaItem) : List LogEntry :=
  if services.isEmpty then []
  else services.flatMap (refreshOneService (dedupItems items))

theorem do_refresh_mem (services : List ServiceBehavior)
    (items : List RefreshMediaItem) (svc : ServiceBehavior) (e : LogEntry)
    (hmem : svc ∈ services) (he : e ∈ refreshOneService (dedupItems items) svc) :
    e ∈ do_refresh services items := by
  have hne : services.isEmpty = false := by
    cases services with
    | nil => cases hmem
    | cons a t => rfl
  rw [do_refresh, hne]
  simp only [Bool.false_eq_true, if_false]
  exact List.mem_flatMap.mpr ⟨svc, hmem, he⟩

/-- C5 counterexample service: live, no item-scoped refresh interface,
whole-library refresh available. -/
def svcNoItem : ServiceBehavior :=
  ⟨"plex9", false, true, fun _ => true⟩

/-- C5 fails on the code: a live service that lacks item-scoped refresh but
supports whole-library refresh receives no whole-library refresh call at
all — the dispatcher only logs the warning and skips it, so the number of
whole-library calls is 0, not 1. -/
theorem do_refresh_no_library_fallback_cex :
    ¬ ((do_refresh [svcNoItem] [itemA1]).count
        (LogEntry.libraryCall "plex9") = 1) := by
  decide

/-- C5 (amended): for every live service in a dispatch cycle that does not
support item-scoped refresh, the dispatcher issues no refresh call for that
service — it logs that refresh is unsupported and skips it, regardless of
whole-library capability; no dispatch cycle ever issues a whole-library
refresh call. -/
theorem do_refresh_unsupported_skip (services : List ServiceBehavior)
    (items : List RefreshMediaItem) (svc : ServiceBehavior)
    (hmem : svc ∈ services) (hcap : svc.hasItemRefresh = false) :
    LogEntry.unsupportedLog svc.name ∈ do_refresh services items ∧
    refreshOneService (dedupItems items) svc = [LogEntry.unsupportedLog svc.name] ∧
    (∀ e ∈ do_refresh services items, ∀ nm, e ≠ LogEntry.libraryCall nm) := by
  have hone : refreshOneService (dedupItems items) svc
      = [LogEntry.unsupportedLog svc.name] := by
    rw [refreshOneService, hcap]
    simp
  refine ⟨?_, hone, ?_⟩
  · exact do_refresh_mem services items svc _ hmem (by rw [hone]; exact List.mem_singleton.mpr rfl)
  · intro e he nm
    rw [do_refresh] at he
    by_cases hne : services.isEmpty
    · rw [if_pos hne] at he
      cases he
    · rw [if_neg hne] at he
      rcases List.mem_flatMap.mp he with ⟨s', _, he'⟩
      rw [refreshOneService] at he'
      by_cases hcap' : s'.hasItemRefresh
      · rw [if_pos hcap'] at he'
        rcases List.mem_flatMap.mp he' with ⟨item, _, he''⟩
        by_cases hok : s'.callOk item
        · rw [if_pos hok] at he''
          rcases List.mem_singleton.mp he'' with rfl
          simp
        · rw [if_neg hok] at he''
          rcases List.mem_cons.mp he'' with rfl | he'''
          · simp
          · rcases List.mem_singleton.mp he''' with rfl
            simp
      · rw [if_neg hcap'] at he'
        rcases List.mem_singleton.mp he' with rfl
        simp

theorem do_refresh_unsupported_skip_witness :
    svcNoItem.hasItemRefresh = false ∧
    (LogEntry.unsupportedLog svcNoItem.name ∈ do_refresh [svcNoItem] [itemA1] ∧
      refreshOneService (dedupItems [itemA1]) svcNoItem
        = [LogEntry.unsupportedLog svcNoItem.name] ∧
      (∀ e ∈ do_refresh [svcNoItem] [itemA1], ∀ nm,
        e ≠ LogEntry.libraryCall nm)) :=
  ⟨rfl, do_refresh_unsupported_skip [svcNoItem] [itemA1] svcNoItem
    (List.mem_singleton.mpr rfl) rfl⟩

/-- C6 scenario service whose every item-scoped call raises. -/
def svcFail : ServiceBehavior :=
  ⟨"emby9", true, true, fun _ => false⟩

/-- C6 scenario service whose every item-scoped call succeeds. -/
def svcOk : ServiceBehavior :=
  ⟨"jellyfin9", true, true, fun _ => true⟩

/-- C6: in every dispatch cycle, each item-capable live service attempts an
item-scoped call for every item of the deduplicated batch, whatever the
outcomes of other calls or other services — so a single call's failure is
caught at that call's granularity, logged with the service name, and does
not abort the remaining items or services. -/
theorem do_refresh_failure_isolated (services : List ServiceBehavior)
    (items : List RefreshMediaItem) (svc : ServiceBehavior)
    (item : RefreshMediaItem)
    (hmem : svc ∈ services) (hcap : svc.hasItemRefresh = true)
    (hitem : item ∈ dedupItems items) :
    LogEntry.itemCall svc.name item (svc.callOk item)
      ∈ do_refresh services items ∧
    (svc.callOk item = false →
      LogEntry.errorLog svc.name ∈ do_refresh services items) := by
  have hin : ∀ ok : Bool, svc.callOk item = ok →
      LogEntry.itemCall svc.name item ok ∈ refreshOneService (dedupItems items) svc := by
    intro ok hok
    rw [refreshOneService, if_pos hcap]
    refine List.mem_flatMap.mpr ⟨item, hitem, ?_⟩
    cases ok with
    | true => rw [if_pos hok]; exact List.mem_singleton.mpr rfl
    | false => rw [if_neg (by simp [hok])]; exact List.mem_cons_self _ _
  constructor
  · exact do_refresh_mem services items svc _ hmem (hin _ rfl)
  · intro hfail
    refine do_refresh_mem services items svc _ hmem ?_
    rw [refreshOneService, if_pos hcap]
    refine List.mem_flatMap.mpr ⟨item, hitem, ?_⟩
    rw [if_neg (by simp [hfail])]
    exact List.mem_cons_of_mem _ (List.mem_singleton.mpr rfl)

theorem do_refresh_failure_isolated_witness :
    (svcOk ∈ [svcFail, svcOk] ∧ itemB1 ∈ dedupItems [itemA1, itemA2, itemB1]) ∧
    (LogEntry.itemCall svcOk.name itemB1 (svcOk.callOk itemB1)
        ∈ do_refresh [svcFail, svcOk] [itemA1, itemA2, itemB1] ∧
      (svcOk.callOk itemB1 = false →
        LogEntry.errorLog svcOk.name
          ∈ do_refresh [svcFail, svcOk] [itemA1, itemA2, itemB1])) :=
  ⟨⟨List.mem_cons_of_mem _ (List.mem_singleton.mpr rfl), by decide⟩,
    do_refresh_failure_isolated [svcFail, svcOk] [itemA1, itemA2, itemB1]
      svcOk itemB1 (List.mem_cons_of_mem _ (List.mem_singleton.mpr rfl))
      rfl (by decide)⟩

/-- In-memory engine state of the plugin instance: configuration
(`_enabled`, `_delay`), the pending queue (`_pending_items`) and the
debounce fields (`_in_delay`, `_end_time`). -/
structure PluginState where
  enabled : Bool
  delay : Nat
  pending : List RefreshMediaItem
  in_delay : Bool
  end_time : Nat
  deriving DecidableEq, Repr

/-- Directory entry of a transfer (`transfer.target_diritem`), carrying
the produced path. -/
structure DirItem where
  path : List String
  deriving DecidableEq, Repr

/-- `TransferInfo` as consumed by `refresh` (source line 221):
only `target_diritem` is read, and it may be missing. -/
structure TransferInfo where
  target_diritem : Option DirItem
  deriving DecidableEq, Repr

/-- `MediaInfo` fields consumed by `refresh` (source lines 228-231). -/
structure MediaInfo where
  title : String
  year : String
  mtype : MediaType
  category : String
  deriving DecidableEq, Repr

/-- Payload of a `TransferComplete` event (`event.event_data`): either
field may be missing; a missing `event_data` dict is both fields `none`. -/
structure InboundEvent where
  transferinfo : Option TransferInfo
  mediainfo : Option MediaInfo
  deriving DecidableEq, Repr

/-- The `RefreshMediaItem(...)` construction of `refresh`
(source lines 227-233). -/
def mkItem (mi : MediaInfo) (di : DirItem) : RefreshMediaItem :=
  ⟨mi.title, mi.year, mi.mtype, mi.category, di.path⟩

/-- `_flush_with_items` (source lines 263-269): atomically drain the
pending queue; if the drained batch is non-empty, run `_do_refresh` on it.
Returns the new state and the dispatch cycle's observable effects. -/
def flush_with_items (s : PluginState) (services : List ServiceBehavior) :
    PluginState × List LogEntry :=
  let items := s.pending
  let s' := { s with pending := ([] : List RefreshMediaItem) }
  if items.isEmpty then (s', []) else (s', do_refresh services items)

/-- Result value of `refresh_now` (source lines 194-210): the
`success`/`message` pairs it returns. -/
inductive FlushResult where
  | notEnabled
  | noServices
  | nothingPending
  | refreshed (n : Nat)
  deriving DecidableEq, Repr

/-- `refresh_now` (source lines 194-210): check enabled, check live
services, drain the queue, and dispatch only when the drained batch is
non-empty.  `services` is the snapshot the Service Registry returns for
this cycle. -/
def refresh_now (s : PluginState) (services : List ServiceBehavior) :
    PluginState × FlushResult × List LogEntry :=
  if s.enabled = false then (s, FlushResult.notEnabled, [])
  else if services.isEmpty then (s, FlushResult.noServices, [])
  else
    let items := s.pending
    let s' := { s with pending := ([] : List RefreshMediaItem) }
    if items.isEmpty then (s', FlushResult.nothingPending, [])
    else (s', FlushResult.refreshed items.length, do_refresh services items)

/-- Outcome of one `refresh` event-handler run: the handler either bails
out (`disabled`, `dropped`), flushes synchronously with the drained batch
(`flushedSync`, the `delay == 0` path), or arms the debounce timer
(`debounced spawned`, recording whether a waiter thread was started). -/
inductive RefreshOutcome where
  | disabled
  | dropped
  | flushedSync (batch : List RefreshMediaItem)
  | debounced (spawned : Bool)
  deriving DecidableEq, Repr

/-- The `refresh` event handler (source lines 216-242): enabled check,
payload validation, item construction and enqueue, then either the
synchronous flush (`delay == 0`) or `_debounce(delay)`. -/
def refresh_handler (services : List ServiceBehavior) (s : PluginState)
    (ev : InboundEvent) (now : Nat) :
    PluginState × RefreshOutcome × List LogEntry :=
  if s.enabled = false then (s, RefreshOutcome.disabled, [])
  else
    match ev.transferinfo, ev.mediainfo with
    | some transfer, some media =>
      match transfer.target_diritem with
      | some diritem =>
          let item := mkItem media diritem
          let s1 := { s with pending := s.pending ++ [item] }
          if s.delay = 0 then
            let r := flush_with_items s1 services
            (r.1, RefreshOutcome.flushedSync s1.pending, r.2)
          else
            ({ s1 with end_time := now + s.delay, in_delay := true },
              RefreshOutcome.debounced (!s.in_delay), [])
      | none => (s, RefreshOutcome.dropped, [])
    | _, _ => (s, RefreshOutcome.dropped, [])

/-- `stop_service` (source lines 300-303): zero the deadline and clear the
pending queue; `_in_delay` is not touched. -/
def stop_service (s : PluginState) : PluginState :=
  { s with end_time := 0, pending := ([] : List RefreshMediaItem) }

/-- The waiter's loop guard `time.time() < self._end_time`
(source line 255): true while the waiter keeps sleeping. -/
def waiter_continues (s : PluginState) (t : Nat) : Bool :=
  decide (t < s.end_time)

/-- C4: with `delay == 0`, a well-formed inbound event spawns no waiter:
the handler enqueues the item and immediately performs the
drain-dedup-dispatch flush on the calling path — the resulting queue is
empty, the flushed batch is the just-extended queue content, the dispatch
effects are those of `_do_refresh` on it, and the outcome is never
`debounced`. -/
theorem refresh_zero_delay_sync (services : List ServiceBehavior)
    (s : PluginState) (ev : InboundEvent) (now : Nat)
    (tri : TransferInfo) (mi : MediaInfo) (di : DirItem)
    (hen : s.enabled = true) (hdel : s.delay = 0)
    (htr : ev.transferinfo = some tri) (hmi : ev.mediainfo = some mi)
    (hdi : tri.target_diritem = some di) :
    refresh_handler services s ev now =
      ({ s with pending := ([] : List RefreshMediaItem) },
        RefreshOutcome.flushedSync (s.pending ++ [mkItem mi di]),
        do_refresh services (s.pending ++ [mkItem mi di])) ∧
    (∀ sp, (refresh_handler services s ev now).2.1 ≠ RefreshOutcome.debounced sp) := by
  have hmain : refresh_handler services s ev now =
      ({ s with pending := ([] : List RefreshMediaItem) },
        RefreshOutcome.flushedSync (s.pending ++ [mkItem mi di]),
        do_refresh services (s.pending ++ [mkItem mi di])) := by
    rw [refresh_handler, htr, hmi]
    simp only [hen, Bool.true_eq_false, if_false]
    rw [hdi]
    simp only [hdel, if_pos rfl]
    have hne : (s.pending ++ [mkItem mi di]).isEmpty = false := by
      simp [List.isEmpty_eq_false]
    simp [flush_with_items, hne]
  refine ⟨hmain, fun sp h => ?_⟩
  rw [hmain] at h
  simp at h

theorem refresh_zero_delay_sync_witness :
    ((⟨true, 0, [], false, 0⟩ : PluginState).enabled = true ∧
      (⟨true, 0, [], false, 0⟩ : PluginState).delay = 0) ∧
    (refresh_handler [svcOk] ⟨true, 0, [], false, 0⟩
        ⟨some ⟨some ⟨["lib", "showA", "ep1"]⟩⟩, some ⟨"showA", "2021", MediaType.tv, "tvshows"⟩⟩ 7 =
      ({ (⟨true, 0, [], false, 0⟩ : PluginState) with
          pending := ([] : List RefreshMediaItem) },
        RefreshOutcome.flushedSync
          (([] : List RefreshMediaItem)
            ++ [mkItem ⟨"showA", "2021", MediaType.tv, "tvshows"⟩ ⟨["lib", "showA", "ep1"]⟩]),
        do_refresh [svcOk]
          (([] : List RefreshMediaItem)
            ++ [mkItem ⟨"showA", "2021", MediaType.tv, "tvshows"⟩ ⟨["lib", "showA", "ep1"]⟩])) ∧
      (∀ sp, (refresh_handler [svcOk] ⟨true, 0, [], false, 0⟩
          ⟨some ⟨some ⟨["lib", "showA", "ep1"]⟩⟩, some ⟨"showA", "2021", MediaType.tv, "tvshows"⟩⟩ 7).2.1
        ≠ RefreshOutcome.debounced sp)) :=
  ⟨⟨rfl, rfl⟩,
    refresh_zero_delay_sync [svcOk] ⟨true, 0, [], false, 0⟩
      ⟨some ⟨some ⟨["lib", "showA", "ep1"]⟩⟩, some ⟨"showA", "2021", MediaType.tv, "tvshows"⟩⟩ 7
      ⟨some ⟨["lib", "showA", "ep1"]⟩⟩ ⟨"showA", "2021", MediaType.tv, "tvshows"⟩
      ⟨["lib", "showA", "ep1"]⟩ rfl rfl rfl rfl rfl⟩

/-- C7: an inbound event whose payload lacks the transfer record, the media
metadata, or the target directory makes the handler return immediately:
no Refresh Item is constructed, the pending queue and the debounce state
are untouched, and no dispatch effect occurs (the handler is a total
function — it raises nothing). -/
theorem refresh_malformed_noop (services : List ServiceBehavior)
    (s : PluginState) (ev : InboundEvent) (now : Nat)
    (hen : s.enabled = true)
    (hmal : ev.transferinfo = none ∨ ev.mediainfo = none ∨
      ∃ tri, ev.transferinfo = some tri ∧ tri.target_diritem = none) :
    refresh_handler services s ev now = (s, RefreshOutcome.dropped, []) := by
  rw [refresh_handler]
  simp only [hen, Bool.true_eq_false, if_false]
  rcases hmal with htr | hmi | ⟨tri, htr, hdi⟩
  · rw [htr]
  · rw [hmi]
    cases ev.transferinfo <;> rfl
  · rw [htr]
    cases hmi : ev.mediainfo with
    | none => rfl
    | some mi =>
        dsimp only
        rw [hdi]

theorem refresh_malformed_noop_witness :
    ((⟨none, some ⟨"showA", "2021", MediaType.tv, "tvshows"⟩⟩ : InboundEvent).transferinfo
        = none ∨
      (⟨none, some ⟨"showA", "2021", MediaType.tv, "tvshows"⟩⟩ : InboundEvent).mediainfo
        = none ∨
      ∃ tri, (⟨none, some ⟨"showA", "2021", MediaType.tv, "tvshows"⟩⟩ : InboundEvent).transferinfo
          = some tri ∧ tri.target_diritem = none) ∧
    refresh_handler [svcOk] ⟨true, 5, [itemA1], false, 0⟩
        ⟨none, some ⟨"showA", "2021", MediaType.tv, "tvshows"⟩⟩ 3
      = (⟨true, 5, [itemA1], false, 0⟩, RefreshOutcome.dropped, []) :=
  ⟨Or.inl rfl,
    refresh_malformed_noop [svcOk] ⟨true, 5, [itemA1], false, 0⟩
      ⟨none, some ⟨"showA", "2021", MediaType.tv, "tvshows"⟩⟩ 3 rfl (Or.inl rfl)⟩

/-- C8: a manual flush while the pending queue is empty, with the plugin
enabled and at least one live service, returns the "nothing pending"
result and issues zero refresh calls to any service. -/
theorem refresh_now_nothing_pending (s : PluginState)
    (services : List ServiceBehavior)
    (hen : s.enabled = true) (hsv : services.isEmpty = false)
    (hq : s.pending = []) :
    refresh_now s services
      = ({ s with pending := ([] : List RefreshMediaItem) },
          FlushResult.nothingPending, []) ∧
    (refresh_now s services).2.2 = [] := by
  have hmain : refresh_now s services
      = ({ s with pending := ([] : List RefreshMediaItem) },
          FlushResult.nothingPending, []) := by
    rw [refresh_now]
    simp only [hen, Bool.true_eq_false, if_false, hsv, Bool.false_eq_true, if_false]
    simp [hq]
  exact ⟨hmain, by rw [hmain]⟩

theorem refresh_now_nothing_pending_witness :
    ((⟨true, 5, [], false, 0⟩ : PluginState).pending = []) ∧
    (refresh_now ⟨true, 5, [], false, 0⟩ [svcOk]
        = ({ (⟨true, 5, [], false, 0⟩ : PluginState) with
              pending := ([] : List RefreshMediaItem) },
            FlushResult.nothingPending, []) ∧
      (refresh_now ⟨true, 5, [], false, 0⟩ [svcOk]).2.2 = []) :=
  ⟨rfl, refresh_now_nothing_pending ⟨true, 5, [], false, 0⟩ [svcOk] rfl rfl rfl⟩

/-- C9: after `stop_service` the deadline is zero and the pending queue is
empty; an in-flight waiter's next wake at any time observes
`now >= deadline` (the loop guard is false), and the timer-path flush then
drains an empty queue and issues no refresh call. -/
theorem stop_service_waiter_noop (s : PluginState)
    (services : List ServiceBehavior) (t : Nat) :
    (stop_service s).end_time = 0 ∧
    (stop_service s).pending = [] ∧
    waiter_continues (stop_service s) t = false ∧
    flush_with_items (stop_service s) services = (stop_service s, []) := by
  refine ⟨rfl, rfl, ?_, rfl⟩
  simp [waiter_continues, stop_service]

/-- C10: the two flush paths treat the no-live-services case
asymmetrically.  A manual flush checks for live services before draining,
so with none available it returns "no services" and leaves the pending
queue unchanged; the timer-path flush drains first and only then
`_do_refresh` discovers there are no services, so the drained items are
discarded without any refresh call and without being restored. -/
theorem no_services_asymmetry (s : PluginState)
    (hen : s.enabled = true) (hq : s.pending ≠ []) :
    refresh_now s [] = (s, FlushResult.noServices, []) ∧
    (flush_with_items s []).1.pending = [] ∧
    (flush_with_items s []).2 = [] := by
  refine ⟨?_, ?_, ?_⟩
  · rw [refresh_now]
    simp [hen]
  · rw [flush_with_items]
    by_cases h : s.pending.isEmpty <;> simp [h]
  · rw [flush_with_items]
    have hne : s.pending.isEmpty = false := by
      simpa [List.isEmpty_eq_false] using hq
    simp only [hne, Bool.false_eq_true, if_false]
    simp [do_refresh]

theorem no_services_asymmetry_witness :
    ((⟨true, 5, [itemA1], false, 0⟩ : PluginState).pending ≠ []) ∧
    (refresh_now ⟨true, 5, [itemA1], false, 0⟩ []
        = (⟨true, 5, [itemA1], false, 0⟩, FlushResult.noServices, []) ∧
      (flush_with_items ⟨true, 5, [itemA1], false, 0⟩ []).1.pending = [] ∧
      (flush_with_items ⟨true, 5, [itemA1], false, 0⟩ []).2 = []) :=
  ⟨by decide,
    no_services_asymmetry ⟨true, 5, [itemA1], false, 0⟩ rfl (by decide)⟩
